import Mathlib

/-!
# Verification of `dipole_in_vacuum_cyl_nonaxisymmetric.py`

A shallow embedding of the example script computing the far-field radiation
pattern of a nonaxisymmetric point dipole in cylindrical coordinates.

Modelling conventions:
* A numpy complex array of shape `(N, 3)` is a `List (ℂ × ℂ × ℂ)` of length
  `N`; the three tuple components are the columns `0`, `1`, `2`.
* Python floats are modelled as real numbers `ℝ`.
* The external FDTD engine (`meep`) is opaque: the value of
  `sim.get_farfield` at far-field point `n` for the mode-`m` simulation is
  abstracted as a parameter `gf : ℤ → ℕ → Fin 6 → ℂ` (six field components
  `Er, Ep, Ez, Hr, Hp, Hz` per point).
* The `while True` loop of `__main__` is modelled as a step function on an
  explicit loop state together with the trace of states it generates.
-/

noncomputable section

namespace DipoleCyl

/-- `NUM_FARFIELD_PTS = 50` from the script. -/
def NUM_FARFIELD_PTS : ℕ := 50

/-- `WAVELENGTH_UM = 1.0` from the script. -/
def WAVELENGTH_UM : ℝ := 1.0

/-- `FARFIELD_RADIUS_UM = 1e6 * WAVELENGTH_UM` from the script. -/
def FARFIELD_RADIUS_UM : ℝ := 1e6 * WAVELENGTH_UM

/-- `POWER_DECAY_THRESHOLD = 1e-4` from the script. -/
def POWER_DECAY_THRESHOLD : ℝ := 1e-4

/-- One row of a far-field array: the three columns of a `(N, 3)` numpy
array. -/
abbrev FieldRow : Type := ℂ × ℂ × ℂ

/-- A far-field array of shape `(N, 3)`: a list of `N` rows. -/
abbrev FieldArr : Type := List FieldRow

/-- `polar_rad = np.linspace(0, 0.5 * math.pi, NUM_FARFIELD_PTS)`: entry `n`
of the linspace is `n * step` with `step = (π/2)/(NUM_FARFIELD_PTS - 1)`. -/
def polar_rad (n : ℕ) : ℝ :=
  (n : ℝ) * (0.5 * Real.pi / ((NUM_FARFIELD_PTS : ℝ) - 1))

/-- `flux_x` of `radiation_pattern` at one far-field point:
`np.real(e_field[:, 1] * h_field[:, 2] - e_field[:, 2] * h_field[:, 1])`. -/
def fluxX (er hr : FieldRow) : ℝ :=
  (er.2.1 * hr.2.2 - er.2.2 * hr.2.1).re

/-- `flux_z` of `radiation_pattern` at one far-field point:
`np.real(e_field[:, 0] * h_field[:, 1] - e_field[:, 1] * h_field[:, 0])`. -/
def fluxZ (er hr : FieldRow) : ℝ :=
  (er.1 * hr.2.1 - er.2.1 * hr.1).re

/-- `radiation_pattern(e_field, h_field)`: the radial Poynting flux
`np.sqrt(np.square(flux_x) + np.square(flux_z))` as a 1D array, computed
elementwise over the rows of the two input arrays. -/
def radiation_pattern (e_field h_field : FieldArr) : List ℝ :=
  List.zipWith
    (fun er hr => Real.sqrt (fluxX er hr ^ 2 + fluxZ er hr ^ 2))
    e_field h_field

/-- The 1D array `np.sin(polar_rad)` used by `flux_from_farfields`. -/
def sin_polar : List ℝ :=
  (List.range NUM_FARFIELD_PTS).map (fun n => Real.sin (polar_rad n))

/-- `flux_from_farfields(e_field, h_field)`: the total Poynting flux
`np.sum(radiation_pattern * np.sin(polar_rad)) * R^2 * dtheta * dphi`. -/
def flux_from_farfields (e_field h_field : FieldArr) : ℝ :=
  let dphi : ℝ := 2 * Real.pi
  let dtheta : ℝ := 0.5 * Real.pi / ((NUM_FARFIELD_PTS : ℝ) - 1)
  let dipole_radiation_pattern := radiation_pattern e_field h_field
  (List.zipWith (fun x s => x * s) dipole_radiation_pattern sin_polar).sum *
    FARFIELD_RADIUS_UM ^ 2 * dtheta * dphi

/-- `get_farfields(sim, n2f_mon)`: fills two `(NUM_FARFIELD_PTS, 3)` arrays
from the six components returned by `sim.get_farfield` at each point; the
electric components are conjugated (`np.conj`), the magnetic ones are not.
`g n j` abstracts component `j` of `sim.get_farfield` at point `n`. -/
def get_farfields (g : ℕ → Fin 6 → ℂ) : FieldArr × FieldArr :=
  ((List.range NUM_FARFIELD_PTS).map
      (fun n => ((starRingEnd ℂ) (g n 0), (starRingEnd ℂ) (g n 1),
                 (starRingEnd ℂ) (g n 2))),
   (List.range NUM_FARFIELD_PTS).map
      (fun n => (g n 3, g n 4, g n 5)))

/-- `dipole_in_vacuum(dipole_pos_r, m)`: sets up and runs the external
mode-`m` simulation and returns `get_farfields` of its monitor.  The opaque
engine is abstracted by `gf`, where `gf m` is the far-field sampling
function of the mode-`m` simulation (the dipole position is fixed inside
`gf`). -/
def dipole_in_vacuum (gf : ℤ → ℕ → Fin 6 → ℂ) (m : ℤ) :
    FieldArr × FieldArr :=
  get_farfields (gf m)

/-- Elementwise sum of two rows, one entry of the numpy `+=` on a
`(N, 3)` complex array. -/
def rowAdd (x y : FieldRow) : FieldRow :=
  (x.1 + y.1, x.2.1 + y.2.1, x.2.2 + y.2.2)

/-- numpy `+=` on two far-field arrays of equal shape: elementwise sum of
the rows. -/
def addF (a b : FieldArr) : FieldArr :=
  List.zipWith rowAdd a b

/-- The state of the `__main__` convergence loop at the top of an
iteration: the accumulators `e_field_total` and `h_field_total`, the
running maximum `flux_max` and the current mode number `m`. -/
structure LoopState where
  e_field_total : FieldArr
  h_field_total : FieldArr
  flux_max : ℝ
  m : ℕ

/-- All values computed by one execution of the loop body, just before the
`break` test. -/
structure IterResult where
  e_field_total : FieldArr
  h_field_total : FieldArr
  lastE : FieldArr
  lastH : FieldArr
  flux : ℝ
  flux_max : ℝ
  power_decay : ℝ
  m : ℕ

/-- The solver calls of one loop-body iteration: returns the updated
accumulators together with the fields bound to `e_field, h_field` after the
calls (the mode `+m` result when `m = 0`, the mode `-m` result when
`m > 0`). -/
def iterFields (gf : ℤ → ℕ → Fin 6 → ℂ) (s : LoopState) :
    FieldArr × FieldArr × FieldArr × FieldArr :=
  let eh0 := dipole_in_vacuum gf (s.m : ℤ)
  let eT0 := addF s.e_field_total eh0.1
  let hT0 := addF s.h_field_total eh0.2
  if 0 < s.m then
    let eh1 := dipole_in_vacuum gf (-(s.m : ℤ))
    (addF eT0 eh1.1, addF hT0 eh1.2, eh1.1, eh1.2)
  else
    (eT0, hT0, eh0.1, eh0.2)

/-- One execution of the loop body of `__main__` from state `s`: the solver
calls, the accumulation, `flux = flux_from_farfields(e_field, h_field)`,
the update `if flux > flux_max: flux_max = flux` and
`power_decay = flux / flux_max`. -/
def runIter (gf : ℤ → ℕ → Fin 6 → ℂ) (s : LoopState) : IterResult :=
  let f := iterFields gf s
  let flux := flux_from_farfields f.2.2.1 f.2.2.2
  let flux_max := if s.flux_max < flux then flux else s.flux_max
  { e_field_total := f.1
    h_field_total := f.2.1
    lastE := f.2.2.1
    lastH := f.2.2.2
    flux := flux
    flux_max := flux_max
    power_decay := flux / flux_max
    m := s.m }

/-- The `break` condition of the loop:
`m > 0 and power_decay < POWER_DECAY_THRESHOLD`. -/
def exitCond (r : IterResult) : Prop :=
  0 < r.m ∧ r.power_decay < POWER_DECAY_THRESHOLD

/-- The state at the top of the next iteration when the loop does not
break: the accumulators and `flux_max` carry over and `m += 1`. -/
def nextState (r : IterResult) : LoopState :=
  { e_field_total := r.e_field_total
    h_field_total := r.h_field_total
    flux_max := r.flux_max
    m := r.m + 1 }

/-- The initial loop state of `__main__`: zero accumulators of shape
`(NUM_FARFIELD_PTS, 3)`, `flux_max = 0`, `m = 0`. -/
def initState : LoopState :=
  { e_field_total := List.replicate NUM_FARFIELD_PTS (0, 0, 0)
    h_field_total := List.replicate NUM_FARFIELD_PTS (0, 0, 0)
    flux_max := 0
    m := 0 }

/-- The trace of loop states: `states gf k` is the state at the top of the
`k`-th iteration of the loop body (the loop executes the prefix of this
trace up to and including the first iteration whose `exitCond` holds). -/
def states (gf : ℤ → ℕ → Fin 6 → ℂ) : ℕ → LoopState
  | 0 => initState
  | k + 1 => nextState (runIter gf (states gf k))

/-- The loop breaks at iteration `k`: the break condition holds there and
at no earlier iteration. -/
def loopExitsAt (gf : ℤ → ℕ → Fin 6 → ℂ) (k : ℕ) : Prop :=
  exitCond (runIter gf (states gf k)) ∧
    ∀ j < k, ¬ exitCond (runIter gf (states gf j))

/-- `np.max` of a 1D array (defined on nonempty arrays; `0` on the empty
array, on which numpy raises). -/
def np_max : List ℝ → ℝ
  | [] => 0
  | x :: xs => xs.foldl max x

/-- `normalized_radial_flux = radial_flux / np.max(radial_flux)` from
`plot_radiation_pattern`. -/
def normalized_radial_flux (radial_flux : List ℝ) : List ℝ :=
  radial_flux.map (fun x => x / np_max radial_flux)

/-- `dipole_radial_flux = np.square(np.cos(polar_rad))` from
`plot_radiation_pattern`. -/
def dipole_radial_flux : List ℝ :=
  (List.range NUM_FARFIELD_PTS).map (fun n => Real.cos (polar_rad n) ^ 2)

/-- `np.linalg.norm` of a 1D real array: the Euclidean norm. -/
def norm2 (l : List ℝ) : ℝ :=
  Real.sqrt ((l.map (fun x => x ^ 2)).sum)

/-- The `relative_error` computed by `plot_radiation_pattern`:
`norm(normalized_radial_flux - dipole_radial_flux) / norm(dipole_radial_flux)`. -/
def relative_error (radial_flux : List ℝ) : ℝ :=
  norm2 (List.zipWith (fun a b => a - b)
      (normalized_radial_flux radial_flux) dipole_radial_flux) /
    norm2 dipole_radial_flux

/-! ## List helper lemmas -/

lemma getD_zipWith {α β γ : Type} (f : α → β → γ) (a : List α) :
    ∀ (b : List β) (n : ℕ) (da : α) (db : β) (dc : γ),
      n < a.length → n < b.length →
      (List.zipWith f a b).getD n dc = f (a.getD n da) (b.getD n db) := by
  induction a with
  | nil => intro b n _ _ _ ha _; simp at ha
  | cons x xs ih =>
      intro b n da db dc ha hb
      cases b with
      | nil => simp at hb
      | cons y ys =>
          cases n with
          | zero => simp
          | succ n =>
              simp only [List.zipWith_cons_cons, List.getD_cons_succ]
              exact ih ys n da db dc (by simpa using ha) (by simpa using hb)

lemma getD_map_range {α : Type} (g : ℕ → α) (N n : ℕ) (d : α) (h : n < N) :
    ((List.range N).map g).getD n d = g n := by
  rw [List.getD_eq_getElem _ _ (by simpa)]
  simp

lemma sum_map_range (g : ℕ → ℝ) (N : ℕ) :
    ((List.range N).map g).sum = ∑ n ∈ Finset.range N, g n := by
  induction N with
  | zero => simp
  | succ n ih => rw [List.range_succ]; simp [ih, Finset.sum_range_succ]

lemma sum_eq_sum_getD (l : List ℝ) :
    l.sum = ∑ n ∈ Finset.range l.length, l.getD n 0 := by
  induction l with
  | nil => simp
  | cons x xs ih =>
      rw [List.sum_cons, List.length_cons, Finset.sum_range_succ']
      simp [ih, add_comm]

lemma mem_zipWith {α β γ : Type} (f : α → β → γ) (a : List α) :
    ∀ (b : List β) (x : γ), x ∈ List.zipWith f a b →
      ∃ u ∈ a, ∃ v ∈ b, x = f u v := by
  induction a with
  | nil => intro b x hx; simp at hx
  | cons u us ih =>
      intro b x hx
      cases b with
      | nil => simp at hx
      | cons v vs =>
          rw [List.zipWith_cons_cons, List.mem_cons] at hx
          rcases hx with hx | hx
          · exact ⟨u, List.mem_cons_self u us, v, List.mem_cons_self v vs, hx⟩
          · obtain ⟨u', hu, v', hv, hx⟩ := ih vs x hx
            exact ⟨u', List.mem_cons_of_mem u hu, v',
              List.mem_cons_of_mem v hv, hx⟩

/-! ## Basic facts about the embedded definitions -/

lemma length_addF (a b : FieldArr) :
    (addF a b).length = min a.length b.length :=
  List.length_zipWith rowAdd a b

lemma length_radiation_pattern (e_field h_field : FieldArr) :
    (radiation_pattern e_field h_field).length =
      min e_field.length h_field.length :=
  List.length_zipWith _ e_field h_field

lemma length_get_farfields_fst (g : ℕ → Fin 6 → ℂ) :
    (get_farfields g).1.length = NUM_FARFIELD_PTS := by
  simp [get_farfields]

lemma length_get_farfields_snd (g : ℕ → Fin 6 → ℂ) :
    (get_farfields g).2.length = NUM_FARFIELD_PTS := by
  simp [get_farfields]

lemma runIter_m (gf : ℤ → ℕ → Fin 6 → ℂ) (s : LoopState) :
    (runIter gf s).m = s.m := rfl

lemma runIter_e_total (gf : ℤ → ℕ → Fin 6 → ℂ) (s : LoopState) :
    (runIter gf s).e_field_total = (iterFields gf s).1 := rfl

lemma runIter_h_total (gf : ℤ → ℕ → Fin 6 → ℂ) (s : LoopState) :
    (runIter gf s).h_field_total = (iterFields gf s).2.1 := rfl

lemma runIter_lastE (gf : ℤ → ℕ → Fin 6 → ℂ) (s : LoopState) :
    (runIter gf s).lastE = (iterFields gf s).2.2.1 := rfl

lemma runIter_lastH (gf : ℤ → ℕ → Fin 6 → ℂ) (s : LoopState) :
    (runIter gf s).lastH = (iterFields gf s).2.2.2 := rfl

lemma runIter_flux (gf : ℤ → ℕ → Fin 6 → ℂ) (s : LoopState) :
    (runIter gf s).flux =
      flux_from_farfields (iterFields gf s).2.2.1 (iterFields gf s).2.2.2 :=
  rfl

lemma runIter_flux_max (gf : ℤ → ℕ → Fin 6 → ℂ) (s : LoopState) :
    (runIter gf s).flux_max =
      if s.flux_max < (runIter gf s).flux then (runIter gf s).flux
      else s.flux_max := rfl

lemma runIter_power_decay (gf : ℤ → ℕ → Fin 6 → ℂ) (s : LoopState) :
    (runIter gf s).power_decay =
      (runIter gf s).flux / (runIter gf s).flux_max := rfl

lemma iterFields_of_pos (gf : ℤ → ℕ → Fin 6 → ℂ) (s : LoopState)
    (h : 0 < s.m) :
    iterFields gf s =
      (addF (addF s.e_field_total (dipole_in_vacuum gf (s.m : ℤ)).1)
         (dipole_in_vacuum gf (-(s.m : ℤ))).1,
       addF (addF s.h_field_total (dipole_in_vacuum gf (s.m : ℤ)).2)
         (dipole_in_vacuum gf (-(s.m : ℤ))).2,
       (dipole_in_vacuum gf (-(s.m : ℤ))).1,
       (dipole_in_vacuum gf (-(s.m : ℤ))).2) := by
  simp [iterFields, h]

lemma iterFields_of_zero (gf : ℤ → ℕ → Fin 6 → ℂ) (s : LoopState)
    (h : s.m = 0) :
    iterFields gf s =
      (addF s.e_field_total (dipole_in_vacuum gf (s.m : ℤ)).1,
       addF s.h_field_total (dipole_in_vacuum gf (s.m : ℤ)).2,
       (dipole_in_vacuum gf (s.m : ℤ)).1,
       (dipole_in_vacuum gf (s.m : ℤ)).2) := by
  simp [iterFields, h]

lemma states_m (gf : ℤ → ℕ → Fin 6 → ℂ) (k : ℕ) :
    (states gf k).m = k := by
  induction k with
  | zero => rfl
  | succ k ih => simp [states, nextState, runIter_m, ih]

/-! ## Concrete data used by witnesses -/

/-- A degenerate opaque engine returning zero fields everywhere. -/
def gf0 : ℤ → ℕ → Fin 6 → ℂ := fun _ _ _ => 0

/-- The all-zero far-field row. -/
def zeroRow : FieldRow := (0, 0, 0)

/-- A concrete loop state with mode number `1`. -/
def sW1 : LoopState :=
  { e_field_total := [], h_field_total := [], flux_max := 0, m := 1 }

/-! ## Claim theorems -/

/-- C3: for inputs of shape `(N, 3)`, `radiation_pattern` returns the real
1D array of length `N` whose `n`-th element is
`sqrt(fx^2 + fz^2)` with `fx = Re(e[n,1]*h[n,2] - e[n,2]*h[n,1])` and
`fz = Re(e[n,0]*h[n,1] - e[n,1]*h[n,0])`. -/
theorem C3_radiation_pattern_formula (e_field h_field : FieldArr) (N : ℕ)
    (he : e_field.length = N) (hh : h_field.length = N) :
    (radiation_pattern e_field h_field).length = N ∧
    ∀ n, n < N → ∀ (d : ℝ) (dr : FieldRow),
      (radiation_pattern e_field h_field).getD n d =
        Real.sqrt
          ((((e_field.getD n dr).2.1 * (h_field.getD n dr).2.2 -
              (e_field.getD n dr).2.2 * (h_field.getD n dr).2.1).re) ^ 2 +
            (((e_field.getD n dr).1 * (h_field.getD n dr).2.1 -
              (e_field.getD n dr).2.1 * (h_field.getD n dr).1).re) ^ 2) := by
  constructor
  · rw [length_radiation_pattern, he, hh, min_self]
  · intro n hn d dr
    rw [radiation_pattern,
      getD_zipWith _ _ _ n dr dr d (he ▸ hn) (hh ▸ hn)]
    rfl

/-- Witness for C3 at concrete length-1 inputs. -/
theorem C3_witness : (radiation_pattern [zeroRow] [zeroRow]).length = 1 :=
  (C3_radiation_pattern_formula [zeroRow] [zeroRow] 1 rfl rfl).1

/-- C5: for inputs of shape `(NUM_FARFIELD_PTS, 3)`, `flux_from_farfields`
is the sum over all points of `radiation_pattern * sin(polar_rad)`,
multiplied by `FARFIELD_RADIUS_UM^2`, by
`dtheta = (pi/2)/(NUM_FARFIELD_PTS - 1)` and by `dphi = 2*pi`. -/
theorem C5_flux_from_farfields_formula (e_field h_field : FieldArr)
    (he : e_field.length = NUM_FARFIELD_PTS)
    (hh : h_field.length = NUM_FARFIELD_PTS) :
    flux_from_farfields e_field h_field =
      (∑ n ∈ Finset.range NUM_FARFIELD_PTS,
          (radiation_pattern e_field h_field).getD n 0 *
            Real.sin (polar_rad n)) *
        FARFIELD_RADIUS_UM ^ 2 *
        (0.5 * Real.pi / ((NUM_FARFIELD_PTS : ℝ) - 1)) *
        (2 * Real.pi) := by
  have hrp : (radiation_pattern e_field h_field).length =
      NUM_FARFIELD_PTS := by
    rw [length_radiation_pattern, he, hh, min_self]
  have hsin : sin_polar.length = NUM_FARFIELD_PTS := by
    simp [sin_polar]
  have hsum : (List.zipWith (fun x s => x * s)
      (radiation_pattern e_field h_field) sin_polar).sum =
      ∑ n ∈ Finset.range NUM_FARFIELD_PTS,
        (radiation_pattern e_field h_field).getD n 0 *
          Real.sin (polar_rad n) := by
    rw [sum_eq_sum_getD, List.length_zipWith _ _ _, hrp, hsin, min_self]
    refine Finset.sum_congr rfl ?_
    intro n hn
    rw [Finset.mem_range] at hn
    rw [getD_zipWith _ _ _ n 0 0 0 (by rw [hrp]; exact hn)
      (by rw [hsin]; exact hn)]
    simp only [sin_polar]
    rw [getD_map_range _ _ _ _ hn]
  simp only [flux_from_farfields]
  rw [hsum]

/-- Witness for C5 at concrete all-zero inputs of shape `(50, 3)`. -/
theorem C5_witness :
    flux_from_farfields (List.replicate NUM_FARFIELD_PTS zeroRow)
        (List.replicate NUM_FARFIELD_PTS zeroRow) =
      (∑ n ∈ Finset.range NUM_FARFIELD_PTS,
          (radiation_pattern (List.replicate NUM_FARFIELD_PTS zeroRow)
              (List.replicate NUM_FARFIELD_PTS zeroRow)).getD n 0 *
            Real.sin (polar_rad n)) *
        FARFIELD_RADIUS_UM ^ 2 *
        (0.5 * Real.pi / ((NUM_FARFIELD_PTS : ℝ) - 1)) *
        (2 * Real.pi) :=
  C5_flux_from_farfields_formula _ _ (by simp) (by simp)

/-- C6: `radiation_pattern` and `flux_from_farfields` are pure functions of
their arguments in this embedding: equal inputs give equal outputs, and no
global state is read or written. -/
theorem C6_helpers_deterministic (e_field h_field e' h' : FieldArr)
    (he : e_field = e') (hh : h_field = h') :
    radiation_pattern e_field h_field = radiation_pattern e' h' ∧
      flux_from_farfields e_field h_field = flux_from_farfields e' h' := by
  subst he
  subst hh
  exact ⟨rfl, rfl⟩

/-- Witness for C6 at concrete inputs. -/
theorem C6_witness :
    radiation_pattern [zeroRow] [zeroRow] =
        radiation_pattern [zeroRow] [zeroRow] ∧
      flux_from_farfields [zeroRow] [zeroRow] =
        flux_from_farfields [zeroRow] [zeroRow] :=
  C6_helpers_deterministic [zeroRow] [zeroRow] [zeroRow] [zeroRow] rfl rfl

/-- C8: when `m > 0`, the `flux` tested against the convergence criterion
is `flux_from_farfields` of exactly the fields returned by the most recent
solver invocation, the mode `-m` run (not the accumulated totals). -/
theorem C8_flux_from_last_negative_mode (gf : ℤ → ℕ → Fin 6 → ℂ)
    (s : LoopState) (h : 0 < s.m) :
    (runIter gf s).lastE = (dipole_in_vacuum gf (-(s.m : ℤ))).1 ∧
    (runIter gf s).lastH = (dipole_in_vacuum gf (-(s.m : ℤ))).2 ∧
    (runIter gf s).flux =
      flux_from_farfields (dipole_in_vacuum gf (-(s.m : ℤ))).1
        (dipole_in_vacuum gf (-(s.m : ℤ))).2 := by
  rw [runIter_lastE, runIter_lastH, runIter_flux, iterFields_of_pos gf s h]
  exact ⟨rfl, rfl, rfl⟩

/-- Witness for C8 at a concrete state with `m = 1`. -/
theorem C8_witness :
    (runIter gf0 sW1).lastE = (dipole_in_vacuum gf0 (-(sW1.m : ℤ))).1 :=
  (C8_flux_from_last_negative_mode gf0 sW1 (by decide)).1

/-- C10: the argument `fx^2 + fz^2` of the square root in
`radiation_pattern` is non-negative for every row, and every element of
the returned array is a non-negative real number. -/
theorem C10_radiation_pattern_nonneg :
    (∀ er hr : FieldRow, 0 ≤ fluxX er hr ^ 2 + fluxZ er hr ^ 2) ∧
    ∀ (e_field h_field : FieldArr) (x : ℝ),
      x ∈ radiation_pattern e_field h_field → 0 ≤ x := by
  constructor
  · intro er hr
    exact add_nonneg (sq_nonneg _) (sq_nonneg _)
  · intro e_field h_field x hx
    obtain ⟨u, _, v, _, hx⟩ := mem_zipWith _ _ _ _ hx
    rw [hx]
    exact Real.sqrt_nonneg _

/-- Witness for C10 at a concrete element of a concrete array. -/
theorem C10_witness :
    0 ≤ Real.sqrt (fluxX zeroRow zeroRow ^ 2 + fluxZ zeroRow zeroRow ^ 2) :=
  C10_radiation_pattern_nonneg.2 [zeroRow] [zeroRow] _
    (by simp [radiation_pattern])

/-- C1: the loop starts at `m = 0`, increments `m` by exactly `1` per
iteration, and breaks exactly when both `m > 0` and
`flux / flux_max < POWER_DECAY_THRESHOLD`; it never breaks while `m = 0`
or while `flux / flux_max >= POWER_DECAY_THRESHOLD`. -/
theorem C1_loop_structure (gf : ℤ → ℕ → Fin 6 → ℂ) :
    (states gf 0).m = 0 ∧
    (∀ k, (states gf (k + 1)).m = (states gf k).m + 1) ∧
    (∀ k, (states gf k).m = k) ∧
    (∀ k, loopExitsAt gf k →
      0 < (states gf k).m ∧
        (runIter gf (states gf k)).flux /
            (runIter gf (states gf k)).flux_max < POWER_DECAY_THRESHOLD) ∧
    (∀ k, 0 < (states gf k).m →
      (runIter gf (states gf k)).flux /
          (runIter gf (states gf k)).flux_max < POWER_DECAY_THRESHOLD →
      (∀ j < k, ¬ exitCond (runIter gf (states gf j))) →
      loopExitsAt gf k) ∧
    (∀ k, (states gf k).m = 0 → ¬ exitCond (runIter gf (states gf k))) ∧
    (∀ k, POWER_DECAY_THRESHOLD ≤
        (runIter gf (states gf k)).flux /
          (runIter gf (states gf k)).flux_max →
      ¬ exitCond (runIter gf (states gf k))) := by
  refine ⟨rfl, ?_, states_m gf, ?_, ?_, ?_, ?_⟩
  · intro k
    simp [states, nextState, runIter_m]
  · intro k hk
    exact ⟨hk.1.1, hk.1.2⟩
  · intro k hm hpd hprev
    exact ⟨⟨hm, hpd⟩, hprev⟩
  · intro k hm hex
    have h0 := hex.1
    rw [runIter_m, hm] at h0
    exact absurd h0 (lt_irrefl 0)
  · intro k hge hex
    exact absurd hex.2 (not_lt.mpr hge)

/-- Witness for C1: the break condition is false at iteration `0`. -/
theorem C1_witness : ¬ exitCond (runIter gf0 (states gf0 0)) :=
  (C1_loop_structure gf0).2.2.2.2.2.1 0 rfl

/-- C2: each iteration calls the solver once with mode `m` when `m = 0`,
and twice, with `+m` and `-m`, when `m >= 1`; every returned field array is
added elementwise into the accumulators. -/
theorem C2_solver_calls_accumulated (gf : ℤ → ℕ → Fin 6 → ℂ)
    (s : LoopState) :
    (s.m = 0 →
      (runIter gf s).e_field_total =
          addF s.e_field_total (dipole_in_vacuum gf (s.m : ℤ)).1 ∧
        (runIter gf s).h_field_total =
          addF s.h_field_total (dipole_in_vacuum gf (s.m : ℤ)).2) ∧
    (0 < s.m →
      (runIter gf s).e_field_total =
          addF (addF s.e_field_total (dipole_in_vacuum gf (s.m : ℤ)).1)
            (dipole_in_vacuum gf (-(s.m : ℤ))).1 ∧
        (runIter gf s).h_field_total =
          addF (addF s.h_field_total (dipole_in_vacuum gf (s.m : ℤ)).2)
            (dipole_in_vacuum gf (-(s.m : ℤ))).2) ∧
    (∀ (a b : FieldArr) (n : ℕ) (d : FieldRow),
      n < a.length → n < b.length →
      (addF a b).getD n d =
        ((a.getD n d).1 + (b.getD n d).1,
         (a.getD n d).2.1 + (b.getD n d).2.1,
         (a.getD n d).2.2 + (b.getD n d).2.2)) := by
  refine ⟨?_, ?_, ?_⟩
  · intro h
    rw [runIter_e_total, runIter_h_total, iterFields_of_zero gf s h]
    exact ⟨rfl, rfl⟩
  · intro h
    rw [runIter_e_total, runIter_h_total, iterFields_of_pos gf s h]
    exact ⟨rfl, rfl⟩
  · intro a b n d ha hb
    simp only [addF]
    rw [getD_zipWith rowAdd a b n d d d ha hb]
    rfl

/-- Witness for C2 at the initial state, where `m = 0`. -/
theorem C2_witness :
    (runIter gf0 initState).e_field_total =
      addF initState.e_field_total
        (dipole_in_vacuum gf0 (initState.m : ℤ)).1 :=
  ((C2_solver_calls_accumulated gf0 initState).1 rfl).1

lemma length_dipole_fst (gf : ℤ → ℕ → Fin 6 → ℂ) (m : ℤ) :
    (dipole_in_vacuum gf m).1.length = NUM_FARFIELD_PTS :=
  length_get_farfields_fst _

lemma length_dipole_snd (gf : ℤ → ℕ → Fin 6 → ℂ) (m : ℤ) :
    (dipole_in_vacuum gf m).2.length = NUM_FARFIELD_PTS :=
  length_get_farfields_snd _

lemma iterFields_lengths (gf : ℤ → ℕ → Fin 6 → ℂ) (s : LoopState)
    (he : s.e_field_total.length = NUM_FARFIELD_PTS)
    (hh : s.h_field_total.length = NUM_FARFIELD_PTS) :
    (iterFields gf s).1.length = NUM_FARFIELD_PTS ∧
      (iterFields gf s).2.1.length = NUM_FARFIELD_PTS := by
  rcases Nat.eq_zero_or_pos s.m with h | h
  · rw [iterFields_of_zero gf s h]
    constructor
    · simp [length_addF, he, length_dipole_fst]
    · simp [length_addF, hh, length_dipole_snd]
  · rw [iterFields_of_pos gf s h]
    constructor
    · simp [length_addF, he, length_dipole_fst]
    · simp [length_addF, hh, length_dipole_snd]

lemma states_lengths (gf : ℤ → ℕ → Fin 6 → ℂ) (k : ℕ) :
    (states gf k).e_field_total.length = NUM_FARFIELD_PTS ∧
      (states gf k).h_field_total.length = NUM_FARFIELD_PTS := by
  induction k with
  | zero => simp [states, initState]
  | succ k ih =>
      obtain ⟨ihe, ihh⟩ := ih
      have h := iterFields_lengths gf (states gf k) ihe ihh
      constructor
      · simp only [states, nextState]
        rw [runIter_e_total]
        exact h.1
      · simp only [states, nextState]
        rw [runIter_h_total]
        exact h.2

lemma flux_max_mono (gf : ℤ → ℕ → Fin 6 → ℂ) (s : LoopState) :
    s.flux_max ≤ (runIter gf s).flux_max := by
  rw [runIter_flux_max]
  split
  · exact le_of_lt (by assumption)
  · exact le_rfl

/-- A concrete loop state with a positive `flux_max`. -/
def sWfm : LoopState :=
  { e_field_total := [], h_field_total := [], flux_max := 1, m := 0 }

/-- C7: `get_farfields` always returns two arrays of shape
`(NUM_FARFIELD_PTS, 3)`; the accumulators keep that shape after every loop
iteration; and `radiation_pattern` maps `(N, 3)` inputs to a 1D output of
length `N`, so the array passed to `plot_radiation_pattern` and the cos^2
reference both have length `NUM_FARFIELD_PTS = 50`. -/
theorem C7_array_shapes (gf : ℤ → ℕ → Fin 6 → ℂ) :
    (∀ g : ℕ → Fin 6 → ℂ,
      (get_farfields g).1.length = NUM_FARFIELD_PTS ∧
        (get_farfields g).2.length = NUM_FARFIELD_PTS) ∧
    (∀ m : ℤ, (dipole_in_vacuum gf m).1.length = NUM_FARFIELD_PTS ∧
        (dipole_in_vacuum gf m).2.length = NUM_FARFIELD_PTS) ∧
    (∀ k, (states gf k).e_field_total.length = NUM_FARFIELD_PTS ∧
        (states gf k).h_field_total.length = NUM_FARFIELD_PTS) ∧
    (∀ (e_field h_field : FieldArr) (N : ℕ),
      e_field.length = N → h_field.length = N →
        (radiation_pattern e_field h_field).length = N) ∧
    (∀ k, (radiation_pattern (states gf k).e_field_total
        (states gf k).h_field_total).length = NUM_FARFIELD_PTS) ∧
    dipole_radial_flux.length = NUM_FARFIELD_PTS := by
  have hrp : ∀ (e_field h_field : FieldArr) (N : ℕ),
      e_field.length = N → h_field.length = N →
        (radiation_pattern e_field h_field).length = N := by
    intro e_field h_field N he hh
    rw [length_radiation_pattern, he, hh, min_self]
  refine ⟨?_, ?_, states_lengths gf, hrp, ?_, ?_⟩
  · intro g
    exact ⟨length_get_farfields_fst g, length_get_farfields_snd g⟩
  · intro m
    exact ⟨length_dipole_fst gf m, length_dipole_snd gf m⟩
  · intro k
    exact hrp _ _ _ (states_lengths gf k).1 (states_lengths gf k).2
  · simp [dipole_radial_flux]

/-- Witness for C7 at concrete length-2 inputs. -/
theorem C7_witness :
    (radiation_pattern [zeroRow, zeroRow] [zeroRow, zeroRow]).length = 2 :=
  (C7_array_shapes gf0).2.2.2.1 [zeroRow, zeroRow] [zeroRow, zeroRow] 2
    rfl rfl

/-- C9: `flux_max` is nondecreasing over one body execution and across
iterations; after the update `flux_max >= flux`, so
`power_decay = flux / flux_max <= 1` whenever `flux_max > 0` at the check;
and the break condition cannot hold at iteration `0`, so the body runs at
least twice (for `m = 0` and `m = 1`) before the loop can break. -/
theorem C9_flux_max_invariants (gf : ℤ → ℕ → Fin 6 → ℂ) :
    (∀ s : LoopState, s.flux_max ≤ (runIter gf s).flux_max) ∧
    (∀ k, (states gf k).flux_max ≤ (states gf (k + 1)).flux_max) ∧
    (∀ s : LoopState, (runIter gf s).flux ≤ (runIter gf s).flux_max) ∧
    (∀ s : LoopState, 0 < (runIter gf s).flux_max →
      (runIter gf s).power_decay ≤ 1) ∧
    (¬ exitCond (runIter gf (states gf 0))) ∧
    (∀ k, exitCond (runIter gf (states gf k)) → 1 ≤ k) := by
  have hle : ∀ s : LoopState,
      (runIter gf s).flux ≤ (runIter gf s).flux_max := by
    intro s
    rw [runIter_flux_max]
    split
    · exact le_rfl
    · exact le_of_not_lt (by assumption)
  have hnot0 : ∀ k, (states gf k).m = 0 →
      ¬ exitCond (runIter gf (states gf k)) := by
    intro k hk hex
    have h0 := hex.1
    rw [runIter_m, hk] at h0
    exact absurd h0 (lt_irrefl 0)
  refine ⟨flux_max_mono gf, ?_, hle, ?_, ?_, ?_⟩
  · intro k
    simp only [states, nextState]
    exact flux_max_mono gf (states gf k)
  · intro s h
    rw [runIter_power_decay]
    exact div_le_one_of_le₀ (hle s) (le_of_lt h)
  · exact hnot0 0 (states_m gf 0)
  · intro k hex
    rcases Nat.eq_zero_or_pos k with rfl | h
    · exact absurd hex (hnot0 0 (states_m gf 0))
    · exact h

/-- Witness for C9 at a concrete state whose `flux_max` is `1`. -/
theorem C9_witness : (runIter gf0 sWfm).power_decay ≤ 1 :=
  (C9_flux_max_invariants gf0).2.2.2.1 sWfm
    (lt_of_lt_of_le (by norm_num [sWfm]) (flux_max_mono gf0 sWfm))

lemma getD_map {α β : Type} (f : α → β) (l : List α) (n : ℕ) (da : α)
    (db : β) (h : n < l.length) :
    (l.map f).getD n db = f (l.getD n da) := by
  rw [List.getD_eq_getElem _ _ (by simpa), List.getElem_map,
    List.getD_eq_getElem _ _ h]

lemma sum_map_getD (f : ℝ → ℝ) (l : List ℝ) :
    (l.map f).sum = ∑ n ∈ Finset.range l.length, f (l.getD n 0) := by
  rw [sum_eq_sum_getD, List.length_map]
  refine Finset.sum_congr rfl ?_
  intro n hn
  rw [Finset.mem_range] at hn
  exact getD_map f l n 0 0 hn

/-- C4: the final pattern is compared against the ideal-dipole pattern
cos^2(theta): the flux array is divided by its maximum and the relative
error is the Euclidean norm of the difference with `cos^2(polar_rad)`
divided by the Euclidean norm of `cos^2(polar_rad)`, where `polar_rad` is
`NUM_FARFIELD_PTS = 50` equally spaced angles from `0` to `pi/2`
inclusive. -/
theorem C4_relative_error_formula :
    NUM_FARFIELD_PTS = 50 ∧
    polar_rad 0 = 0 ∧
    polar_rad (NUM_FARFIELD_PTS - 1) = Real.pi / 2 ∧
    (∀ n : ℕ, polar_rad (n + 1) - polar_rad n =
      Real.pi / 2 / ((NUM_FARFIELD_PTS : ℝ) - 1)) ∧
    dipole_radial_flux =
      (List.range NUM_FARFIELD_PTS).map
        (fun n => Real.cos (polar_rad n) ^ 2) ∧
    (∀ radial_flux : List ℝ, radial_flux.length = NUM_FARFIELD_PTS →
      relative_error radial_flux =
        Real.sqrt (∑ n ∈ Finset.range NUM_FARFIELD_PTS,
            (radial_flux.getD n 0 / np_max radial_flux -
              Real.cos (polar_rad n) ^ 2) ^ 2) /
          Real.sqrt (∑ n ∈ Finset.range NUM_FARFIELD_PTS,
            (Real.cos (polar_rad n) ^ 2) ^ 2)) := by
  have hB : dipole_radial_flux.length = NUM_FARFIELD_PTS := by
    simp [dipole_radial_flux]
  have hBgetD : ∀ n, n < NUM_FARFIELD_PTS →
      dipole_radial_flux.getD n 0 = Real.cos (polar_rad n) ^ 2 := by
    intro n hn
    simp only [dipole_radial_flux]
    exact getD_map_range _ _ _ _ hn
  have hden : norm2 dipole_radial_flux =
      Real.sqrt (∑ n ∈ Finset.range NUM_FARFIELD_PTS,
        (Real.cos (polar_rad n) ^ 2) ^ 2) := by
    rw [norm2, sum_map_getD, hB]
    congr 1
  refine ⟨rfl, by simp [polar_rad], ?_, ?_, rfl, ?_⟩
  · show polar_rad 49 = Real.pi / 2
    simp only [polar_rad, NUM_FARFIELD_PTS]
    norm_num
    ring
  · intro n
    simp only [polar_rad, NUM_FARFIELD_PTS]
    push_cast
    ring_nf
  · intro radial_flux hlen
    have hA : (normalized_radial_flux radial_flux).length =
        NUM_FARFIELD_PTS := by
      simp [normalized_radial_flux, hlen]
    have hL : (List.zipWith (fun a b => a - b)
        (normalized_radial_flux radial_flux) dipole_radial_flux).length =
        NUM_FARFIELD_PTS := by
      rw [List.length_zipWith _ _ _, hA, hB, min_self]
    rw [relative_error, hden]
    congr 1
    rw [norm2, sum_map_getD, hL]
    congr 1
    refine Finset.sum_congr rfl ?_
    intro n hn
    rw [Finset.mem_range] at hn
    rw [getD_zipWith _ _ _ n 0 0 0 (by rw [hA]; exact hn)
      (by rw [hB]; exact hn)]
    rw [hBgetD n hn]
    simp only [normalized_radial_flux]
    rw [getD_map _ _ n 0 0 (by rw [hlen]; exact hn)]

/-- Witness for C4 at a concrete all-ones flux array of length 50. -/
theorem C4_witness :
    relative_error (List.replicate NUM_FARFIELD_PTS (1 : ℝ)) =
      Real.sqrt (∑ n ∈ Finset.range NUM_FARFIELD_PTS,
          ((List.replicate NUM_FARFIELD_PTS (1 : ℝ)).getD n 0 /
              np_max (List.replicate NUM_FARFIELD_PTS (1 : ℝ)) -
            Real.cos (polar_rad n) ^ 2) ^ 2) /
        Real.sqrt (∑ n ∈ Finset.range NUM_FARFIELD_PTS,
          (Real.cos (polar_rad n) ^ 2) ^ 2) :=
  C4_relative_error_formula.2.2.2.2.2 _ (by simp)

end DipoleCyl

end
